import Mathlib

/-!
# Verification of the fwupd engine integrity snapshot (`fu-engine-integrity.c`)

A shallow embedding of the integrity-snapshot module: a `GHashTable` mapping
string identifiers to checksum strings, with measurement collection,
text (de)serialization and snapshot comparison.

Strings are modelled as `List Char` (`Str`) so that every operation is
structurally recursive and kernel-evaluable.  The hash table is modelled as a
key-unique association list; `g_hash_table_insert` replaces the value at the
first occurrence of the key (GHashTable keys are unique, iteration order is
unspecified, which theorems account for by quantifying over permutations).
-/

set_option autoImplicit false

namespace FuIntegrity

/-- A C string, as a list of characters. -/
abbrev Str := List Char

/-- A raw measurement blob (`GBytes`), as a list of bytes. -/
abbrev Blob := List Nat

/-- The `GHashTable` of `fu-engine-integrity.c`: identifier → checksum. -/
abbrev Snapshot := List (Str × Str)

/-- The `GError` domains/codes the module sets: `G_IO_ERROR_INVALID_DATA`
(from `fu_engine_integrity_from_string` / `fu_engine_integrity_compare`) and
`G_IO_ERROR_NOT_FOUND` (from `fu_engine_integrity_measure`). -/
inductive FuError where
  | invalidData (msg : Str)
  | notFound (msg : Str)
  deriving DecidableEq, Repr

/-- `g_hash_table_lookup`: the value stored for a key, if any. -/
def g_hash_table_lookup : Snapshot → Str → Option Str
  | [], _ => none
  | (k, v) :: rest, key => if k = key then some v else g_hash_table_lookup rest key

/-- `g_hash_table_insert`: insert a key/value pair, replacing the value of an
existing key (last-write-wins, keys stay unique). -/
def g_hash_table_insert : Snapshot → Str → Str → Snapshot
  | [], key, val => [(key, val)]
  | (k, v) :: rest, key, val =>
    if k = key then (key, val) :: rest else (k, v) :: g_hash_table_insert rest key val

/-- The keys of a snapshot. -/
def keys (s : Snapshot) : List Str := s.map Prod.fst

/-- The `GHashTable` invariant: keys are unique. -/
def WF (s : Snapshot) : Prop := (keys s).Nodup

instance (s : Snapshot) : Decidable (WF s) := by unfold WF; infer_instance

/-- `fu_engine_integrity_add_checksum`: store `id → csum`. -/
def fu_engine_integrity_add_checksum (self : Snapshot) (id : Str) (csum : Str) : Snapshot :=
  g_hash_table_insert self id csum

/-- `fu_engine_integrity_add_measurement`: hash the blob with the external
SHA-256 primitive `hash` and store the hex digest. -/
def fu_engine_integrity_add_measurement (hash : Blob → Str) (self : Snapshot)
    (id : Str) (blob : Blob) : Snapshot :=
  fu_engine_integrity_add_checksum self id (hash blob)

/-- A measurement producer (the UEFI and ACPI scanners of the source,
abstracted per the external-interface contract): the finite sequence of
`(identifier, bytes)` pairs it yields on this platform. -/
abbrev Producer := List (Str × Blob)

/-- Feed every pair yielded by one producer into
`fu_engine_integrity_add_measurement`. -/
def runProducer (hash : Blob → Str) (self : Snapshot) (p : Producer) : Snapshot :=
  p.foldl (fun acc m => fu_engine_integrity_add_measurement hash acc m.1 m.2) self

/-- `fu_engine_integrity_measure`: run every producer, then fail with
`G_IO_ERROR_NOT_FOUND` "no measurements" iff the table is still empty.
Returns the mutated table together with the optional error. -/
def fu_engine_integrity_measure (hash : Blob → Str) (self : Snapshot)
    (producers : List Producer) : Snapshot × Option FuError :=
  let self2 := producers.foldl (runProducer hash) self
  if self2.length = 0 then
    (self2, some (FuError.notFound ("no measurements").data))
  else
    (self2, none)

/-- One serialized line, `"<id>=<csum>"`. -/
def lineOf (kv : Str × Str) : Str := kv.1 ++ '=' :: kv.2

/-- `fu_strjoin("\n", array)`: join lines with a newline separator. -/
def joinNl : List Str → Str
  | [] => []
  | [l] => l
  | l :: l2 :: rest => l ++ '\n' :: joinNl (l2 :: rest)

/-- `fu_engine_integrity_to_string`: `NULL` for an empty table, otherwise the
`"k=v"` lines in iteration order joined with `"\n"`. -/
def fu_engine_integrity_to_string (self : Snapshot) : Option Str :=
  if self.length = 0 then none else some (joinNl (self.map lineOf))

/-- Split a character list at every occurrence of `c` (no special case for
the empty input: yields at least one segment). -/
def splitChar (c : Char) : Str → List Str
  | [] => [[]]
  | x :: xs =>
    if x = c then [] :: splitChar c xs
    else
      match splitChar c xs with
      | [] => [[x]]
      | seg :: segs => (x :: seg) :: segs

/-- `g_strsplit(str, "\n", -1)`: GLib returns an empty vector for the empty
string, otherwise all (possibly empty) segments. -/
def g_strsplit_nl (s : Str) : List Str :=
  if s = [] then [] else splitChar '\n' s

/-- Split at the first `'='`: the text before it and the remainder after it. -/
def breakEq : Str → Option (Str × Str)
  | [] => none
  | x :: xs =>
    if x = '=' then some ([], xs)
    else (breakEq xs).map (fun p => (x :: p.1, p.2))

/-- `g_strsplit(line, "=", 2)`: empty vector for the empty string; one token
if the line has no `'='`; otherwise the part before the first `'='` and the
whole remainder (which may itself contain `'='` or be empty). -/
def g_strsplit_eq2 (line : Str) : List Str :=
  if line = [] then []
  else
    match breakEq line with
    | none => [line]
    | some (a, b) => [a, b]

/-- The parsing loop of `fu_engine_integrity_from_string`: process the lines
in order, skipping empty and `'#'` lines, aborting with
`G_IO_ERROR_INVALID_DATA` at the first line that does not split into exactly
two tokens.  `str` is the whole input (the C error message embeds it). -/
def fromStringGo (self : Snapshot) (str : Str) : List Str → Snapshot × Option FuError
  | [] => (self, none)
  | line :: rest =>
    if line = [] ∨ line.head? = some '#' then fromStringGo self str rest
    else
      match g_strsplit_eq2 line with
      | [id, csum] => fromStringGo (fu_engine_integrity_add_checksum self id csum) str rest
      | _ => (self, some (FuError.invalidData (("failed to parse: ").data ++ str)))

/-- `fu_engine_integrity_from_string`: split on `"\n"` and run the parsing
loop, returning the mutated table and the optional error. -/
def fu_engine_integrity_from_string (self : Snapshot) (str : Str) :
    Snapshot × Option FuError :=
  fromStringGo self str (g_strsplit_nl str)

/-- The record of the first comparison scan for one `self` entry:
`"<id>=MISSING-><value>"` if the key is absent from `other`,
`"<id>=<value2>-><value>"` if present with a different value, nothing if the
values agree. -/
def scan1Entry (other : Snapshot) (kv : Str × Str) : Option Str :=
  match g_hash_table_lookup other kv.1 with
  | none => some (kv.1 ++ ("=MISSING->").data ++ kv.2)
  | some value2 => if kv.2 ≠ value2 then some (kv.1 ++ '=' :: value2 ++ ("->").data ++ kv.2) else none

/-- The record of the second comparison scan for one `other` entry:
`"<id>=<value>->MISSING"` if the key is absent from `self`, nothing
otherwise. -/
def scan2Entry (self : Snapshot) (kv : Str × Str) : Option Str :=
  match g_hash_table_lookup self kv.1 with
  | none => some (kv.1 ++ '=' :: kv.2 ++ ("->MISSING").data)
  | some _ => none

/-- The discrepancy array built by `fu_engine_integrity_compare`: first the
scan over `self` (what we have now), then the scan over `other` (what we had
then). -/
def compareArray (self other : Snapshot) : List Str :=
  self.filterMap (scan1Entry other) ++ other.filterMap (scan2Entry self)

/-- `fu_strjoin(", ", array)`: join discrepancies with `", "`. -/
def joinComma : List Str → Str
  | [] => []
  | [l] => l
  | l :: l2 :: rest => l ++ (", ").data ++ joinComma (l2 :: rest)

/-- `fu_engine_integrity_compare`: success iff the discrepancy array is
empty, otherwise `G_IO_ERROR_INVALID_DATA` carrying the joined array. -/
def fu_engine_integrity_compare (self other : Snapshot) : Option FuError :=
  let array := compareArray self other
  if array.length > 0 then some (FuError.invalidData (joinComma array)) else none

/-- A line on which the parsing loop aborts: non-empty, not a `'#'` comment,
and containing no `'='` at all (so `g_strsplit(line, "=", 2)` yields a single
token). -/
def malformedLine (l : Str) : Prop :=
  ¬(l = [] ∨ l.head? = some '#') ∧ '=' ∉ l

instance (l : Str) : Decidable (malformedLine l) := by unfold malformedLine; infer_instance

/-! ## Basic hash-table lemmas -/

theorem keys_nil : keys [] = [] := rfl

theorem keys_cons (kv : Str × Str) (rest : Snapshot) :
    keys (kv :: rest) = kv.1 :: keys rest := rfl

theorem lookup_insert (s : Snapshot) (k v key : Str) :
    g_hash_table_lookup (g_hash_table_insert s k v) key =
      if key = k then some v else g_hash_table_lookup s key := by
  induction s with
  | nil =>
    by_cases h : key = k
    · subst h; simp [g_hash_table_insert, g_hash_table_lookup]
    · have h2 : ¬k = key := fun hc => h hc.symm
      simp [g_hash_table_insert, g_hash_table_lookup, h, h2]
  | cons kv rest ih =>
    obtain ⟨k1, v1⟩ := kv
    by_cases h1 : k1 = k
    · subst h1
      by_cases h2 : key = k1
      · subst h2; simp [g_hash_table_insert, g_hash_table_lookup]
      · have h2a : ¬k1 = key := fun hc => h2 hc.symm
        simp [g_hash_table_insert, g_hash_table_lookup, h2, h2a]
    · by_cases h2 : k1 = key
      · subst h2
        simp [g_hash_table_insert, g_hash_table_lookup, h1]
      · simp [g_hash_table_insert, g_hash_table_lookup, h1, h2, ih]

theorem keys_insert (s : Snapshot) (k v : Str) :
    keys (g_hash_table_insert s k v) =
      if k ∈ keys s then keys s else keys s ++ [k] := by
  induction s with
  | nil => simp [g_hash_table_insert, keys]
  | cons kv rest ih =>
    obtain ⟨k1, v1⟩ := kv
    by_cases h1 : k1 = k
    · subst h1
      simp [g_hash_table_insert, keys_cons]
    · have h1' : ¬k = k1 := fun hc => h1 hc.symm
      simp only [g_hash_table_insert, if_neg h1, keys_cons, List.mem_cons]
      rw [ih]
      by_cases h2 : k ∈ keys rest
      · simp [h2, h1']
      · simp [h2, h1']

theorem WF_insert (s : Snapshot) (k v : Str) (h : WF s) :
    WF (g_hash_table_insert s k v) := by
  unfold WF at h ⊢
  rw [keys_insert]
  by_cases hk : k ∈ keys s
  · rw [if_pos hk]; exact h
  · rw [if_neg hk, List.nodup_append]
    refine ⟨h, List.nodup_singleton _, ?_⟩
    intro a ha hb
    rw [List.mem_singleton] at hb
    subst hb
    exact hk ha

theorem insert_ne_nil (s : Snapshot) (k v : Str) :
    g_hash_table_insert s k v ≠ [] := by
  cases s with
  | nil => simp [g_hash_table_insert]
  | cons kv rest =>
    obtain ⟨k1, v1⟩ := kv
    simp only [g_hash_table_insert]
    by_cases h : k1 = k <;> simp [h]

theorem mem_of_lookup_eq_some {s : Snapshot} {k v : Str}
    (h : g_hash_table_lookup s k = some v) : (k, v) ∈ s := by
  induction s with
  | nil => simp [g_hash_table_lookup] at h
  | cons kv rest ih =>
    obtain ⟨k1, v1⟩ := kv
    by_cases h1 : k1 = k
    · subst h1
      simp [g_hash_table_lookup] at h
      subst h
      exact List.mem_cons_self _ _
    · simp only [g_hash_table_lookup, if_neg h1] at h
      exact List.mem_cons_of_mem _ (ih h)

theorem lookup_eq_some_of_mem {s : Snapshot} {k v : Str} (hwf : WF s)
    (h : (k, v) ∈ s) : g_hash_table_lookup s k = some v := by
  induction s with
  | nil => simp at h
  | cons kv rest ih =>
    obtain ⟨k1, v1⟩ := kv
    unfold WF at hwf
    rw [keys_cons, List.nodup_cons] at hwf
    rcases List.mem_cons.mp h with heq | hmem
    · rw [Prod.mk.injEq] at heq
      obtain ⟨hk, hv⟩ := heq
      subst hk; subst hv
      simp [g_hash_table_lookup]
    · have hk1 : ¬k1 = k := by
        intro hc; subst hc
        exact hwf.1 (List.mem_map.mpr ⟨(k1, v), hmem, rfl⟩)
      simp only [g_hash_table_lookup, if_neg hk1]
      exact ih hwf.2 hmem

theorem lookup_eq_none_iff (s : Snapshot) (k : Str) :
    g_hash_table_lookup s k = none ↔ k ∉ keys s := by
  induction s with
  | nil => simp [g_hash_table_lookup, keys]
  | cons kv rest ih =>
    obtain ⟨k1, v1⟩ := kv
    by_cases h1 : k1 = k
    · subst h1
      simp [g_hash_table_lookup, keys_cons]
    · have h1' : ¬k = k1 := fun hc => h1 hc.symm
      simp only [g_hash_table_lookup, if_neg h1, keys_cons, List.mem_cons]
      rw [ih]
      constructor
      · intro hk hc
        rcases hc with hc | hc
        · exact h1' hc
        · exact hk hc
      · intro hk hc
        exact hk (Or.inr hc)

theorem lookup_perm {s t : Snapshot} (hperm : s.Perm t) (hwf : WF s) (k : Str) :
    g_hash_table_lookup s k = g_hash_table_lookup t k := by
  have hwft : WF t := (hperm.map Prod.fst).nodup_iff.mp hwf
  cases h : g_hash_table_lookup s k with
  | none =>
    rw [lookup_eq_none_iff] at h
    have hnt : k ∉ keys t := fun hc => h ((hperm.map Prod.fst).mem_iff.mpr hc)
    rw [(lookup_eq_none_iff t k).mpr hnt]
  | some v =>
    have hmem : (k, v) ∈ t := hperm.mem_iff.mp (mem_of_lookup_eq_some h)
    rw [lookup_eq_some_of_mem hwft hmem]

theorem insert_of_not_mem {s : Snapshot} {k : Str} (v : Str) (h : k ∉ keys s) :
    g_hash_table_insert s k v = s ++ [(k, v)] := by
  induction s with
  | nil => simp [g_hash_table_insert]
  | cons kv rest ih =>
    obtain ⟨k1, v1⟩ := kv
    rw [keys_cons, List.mem_cons] at h
    push_neg at h
    have h1 : ¬k1 = k := fun hc => h.1 hc.symm
    simp only [g_hash_table_insert, if_neg h1, List.cons_append, List.cons.injEq, true_and]
    exact ih h.2

/-! ## Splitting and joining lemmas -/

theorem splitChar_ne_nil (c : Char) (s : Str) : splitChar c s ≠ [] := by
  induction s with
  | nil => simp [splitChar]
  | cons x xs ih =>
    by_cases hx : x = c
    · simp [splitChar, hx]
    · simp only [splitChar, if_neg hx]
      cases h : splitChar c xs with
      | nil => simp
      | cons seg segs => simp

theorem splitChar_of_not_mem {c : Char} {l : Str} (h : c ∉ l) : splitChar c l = [l] := by
  induction l with
  | nil => simp [splitChar]
  | cons x xs ih =>
    rw [List.mem_cons] at h
    push_neg at h
    have hx : ¬x = c := fun hc => h.1 hc.symm
    simp only [splitChar, if_neg hx, ih h.2]

theorem splitChar_append {c : Char} {l : Str} (r : Str) (h : c ∉ l) :
    splitChar c (l ++ c :: r) = l :: splitChar c r := by
  induction l with
  | nil => simp [splitChar]
  | cons x xs ih =>
    rw [List.mem_cons] at h
    push_neg at h
    have hx : ¬x = c := fun hc => h.1 hc.symm
    simp only [List.cons_append, splitChar, if_neg hx, List.append_eq]
    rw [ih h.2]

theorem splitChar_joinNl (lines : List Str) (hne : lines ≠ [])
    (h : ∀ l ∈ lines, '\n' ∉ l) : splitChar '\n' (joinNl lines) = lines := by
  induction lines with
  | nil => exact absurd rfl hne
  | cons l rest ih =>
    cases rest with
    | nil =>
      rw [joinNl]
      exact splitChar_of_not_mem (h l (List.mem_cons_self _ _))
    | cons l2 rest2 =>
      rw [joinNl, splitChar_append _ (h l (List.mem_cons_self _ _))]
      rw [ih (by simp) (fun x hx => h x (List.mem_cons_of_mem _ hx))]

theorem joinNl_ne_nil {lines : List Str} (h1 : lines ≠ [])
    (h2 : ∀ l ∈ lines, l ≠ []) : joinNl lines ≠ [] := by
  cases lines with
  | nil => exact absurd rfl h1
  | cons l rest =>
    cases rest with
    | nil => exact h2 l (List.mem_cons_self _ _)
    | cons l2 rest2 =>
      rw [joinNl]
      intro hc
      rw [List.append_eq_nil] at hc
      exact List.cons_ne_nil _ _ hc.2

theorem breakEq_append {k : Str} (v : Str) (h : '=' ∉ k) :
    breakEq (k ++ '=' :: v) = some (k, v) := by
  induction k with
  | nil => simp [breakEq]
  | cons x xs ih =>
    rw [List.mem_cons] at h
    push_neg at h
    have hx : ¬x = '=' := fun hc => h.1 hc.symm
    simp only [List.cons_append, breakEq, if_neg hx, List.append_eq]
    rw [ih h.2]
    rfl

theorem breakEq_eq_none_iff (l : Str) : breakEq l = none ↔ '=' ∉ l := by
  induction l with
  | nil => simp [breakEq]
  | cons x xs ih =>
    by_cases hx : x = '='
    · subst hx; simp [breakEq]
    · have hx' : ¬ '=' = x := fun hc => hx hc.symm
      simp [breakEq, hx, hx', Option.map_eq_none', ih]

theorem g_strsplit_eq2_of_line {k : Str} (v : Str) (h : '=' ∉ k) :
    g_strsplit_eq2 (k ++ '=' :: v) = [k, v] := by
  unfold g_strsplit_eq2
  rw [if_neg (by intro hc; rw [List.append_eq_nil] at hc; exact List.cons_ne_nil _ _ hc.2)]
  rw [breakEq_append v h]

theorem lineOf_not_comment {kv : Str × Str} (h : kv.1.head? ≠ some '#') :
    ¬(lineOf kv = [] ∨ (lineOf kv).head? = some '#') := by
  obtain ⟨k, v⟩ := kv
  cases k with
  | nil => simp [lineOf]
  | cons x xs =>
    simp only [List.head?] at h
    simp [lineOf, h]

/-! ## Parsing-loop lemmas -/

theorem fromStringGo_clean_lines (str : Str) (t : Snapshot) (acc : Snapshot)
    (h : ∀ kv ∈ t, '=' ∉ kv.1 ∧ kv.1.head? ≠ some '#') :
    fromStringGo acc str (t.map lineOf) =
      (t.foldl (fun s kv => fu_engine_integrity_add_checksum s kv.1 kv.2) acc, none) := by
  induction t generalizing acc with
  | nil => simp [fromStringGo]
  | cons kv rest ih =>
    have hk := h kv (List.mem_cons_self _ _)
    rw [List.map_cons, List.foldl_cons]
    rw [fromStringGo, if_neg (lineOf_not_comment hk.2)]
    rw [show lineOf kv = kv.1 ++ '=' :: kv.2 from rfl, g_strsplit_eq2_of_line kv.2 hk.1]
    exact ih _ (fun x hx => h x (List.mem_cons_of_mem _ hx))

theorem fromStringGo_snd_ne_none_iff (self : Snapshot) (str : Str) (lines : List Str) :
    (fromStringGo self str lines).2 ≠ none ↔ ∃ l ∈ lines, malformedLine l := by
  induction lines generalizing self with
  | nil => simp [fromStringGo]
  | cons line rest ih =>
    by_cases hc : line = [] ∨ line.head? = some '#'
    · rw [fromStringGo, if_pos hc, ih]
      constructor
      · rintro ⟨l, hl, hm⟩
        exact ⟨l, List.mem_cons_of_mem _ hl, hm⟩
      · rintro ⟨l, hl, hm⟩
        rcases List.mem_cons.mp hl with rfl | hl2
        · exact absurd hc hm.1
        · exact ⟨l, hl2, hm⟩
    · have hlne : line ≠ [] := fun hln => hc (Or.inl hln)
      cases hb : breakEq line with
      | none =>
        rw [fromStringGo, if_neg hc]
        rw [show g_strsplit_eq2 line = [line] by
          unfold g_strsplit_eq2; rw [if_neg hlne, hb]]
        simp only [ne_eq, Option.some_ne_none, not_false_iff, true_iff]
        exact ⟨line, List.mem_cons_self _ _, hc, (breakEq_eq_none_iff line).mp hb⟩
      | some p =>
        obtain ⟨a, b⟩ := p
        rw [fromStringGo, if_neg hc]
        rw [show g_strsplit_eq2 line = [a, b] by
          unfold g_strsplit_eq2; rw [if_neg hlne, hb]]
        rw [ih]
        have hlm : ¬malformedLine line := by
          intro hm
          rw [(breakEq_eq_none_iff line).mpr hm.2] at hb
          exact Option.noConfusion hb
        constructor
        · rintro ⟨l, hl, hm⟩
          exact ⟨l, List.mem_cons_of_mem _ hl, hm⟩
        · rintro ⟨l, hl, hm⟩
          rcases List.mem_cons.mp hl with rfl | hl2
          · exact absurd hm hlm
          · exact ⟨l, hl2, hm⟩

theorem fromStringGo_snd_cases (self : Snapshot) (str : Str) (lines : List Str) :
    (fromStringGo self str lines).2 = none ∨
      (fromStringGo self str lines).2 =
        some (FuError.invalidData (("failed to parse: ").data ++ str)) := by
  induction lines generalizing self with
  | nil => exact Or.inl rfl
  | cons line rest ih =>
    by_cases hc : line = [] ∨ line.head? = some '#'
    · rw [fromStringGo, if_pos hc]; exact ih self
    · rw [fromStringGo, if_neg hc]
      cases hsp : g_strsplit_eq2 line with
      | nil => exact Or.inr rfl
      | cons tok1 toks =>
        cases toks with
        | nil => exact Or.inr rfl
        | cons tok2 toks2 =>
          cases toks2 with
          | nil => exact ih _
          | cons tok3 toks3 => exact Or.inr rfl

theorem fromStringGo_append_malformed (self : Snapshot) (str : Str)
    (good : List Str) (bad : Str) (rest : List Str)
    (hgood : ∀ l ∈ good, ¬malformedLine l) (hbad : malformedLine bad) :
    fromStringGo self str (good ++ bad :: rest) =
      ((fromStringGo self str good).1,
        some (FuError.invalidData (("failed to parse: ").data ++ str))) := by
  induction good generalizing self with
  | nil =>
    obtain ⟨hnc, hne⟩ := hbad
    have hbne : bad ≠ [] := fun hc => hnc (Or.inl hc)
    have hsp : g_strsplit_eq2 bad = [bad] := by
      unfold g_strsplit_eq2; rw [if_neg hbne, (breakEq_eq_none_iff bad).mpr hne]
    rw [List.nil_append]
    rw [show fromStringGo self str (bad :: rest) =
        (self, some (FuError.invalidData (("failed to parse: ").data ++ str))) by
      rw [fromStringGo, if_neg hnc, hsp]]
    rfl
  | cons l good2 ih =>
    have hl := hgood l (List.mem_cons_self _ _)
    by_cases hc : l = [] ∨ l.head? = some '#'
    · rw [List.cons_append, fromStringGo, if_pos hc]
      rw [show fromStringGo self str (l :: good2) = fromStringGo self str good2 by
        rw [fromStringGo, if_pos hc]]
      exact ih self (fun x hx => hgood x (List.mem_cons_of_mem _ hx))
    · have hlne : l ≠ [] := fun hln => hc (Or.inl hln)
      have heq : '=' ∈ l := by
        by_contra hne2
        exact hl ⟨hc, hne2⟩
      cases hb : breakEq l with
      | none =>
        rw [breakEq_eq_none_iff] at hb
        exact absurd heq hb
      | some p =>
        obtain ⟨a, b⟩ := p
        have hsp : g_strsplit_eq2 l = [a, b] := by
          unfold g_strsplit_eq2; rw [if_neg hlne, hb]
        rw [List.cons_append, fromStringGo, if_neg hc, hsp]
        rw [show fromStringGo self str (l :: good2) =
          fromStringGo (fu_engine_integrity_add_checksum self a b) str good2 by
          rw [fromStringGo, if_neg hc, hsp]]
        exact ih _ (fun x hx => hgood x (List.mem_cons_of_mem _ hx))

/-! ## Claim theorems: parsing -/

/-- C8: `from_string` on `"A=1\n#comment\n\nB=2"` applied to an empty snapshot
succeeds and yields exactly the mapping `{"A" ↦ "1", "B" ↦ "2"}`: empty lines
and lines beginning with `'#'` are skipped, all other lines are parsed and
inserted. -/
theorem from_string_skips_comments_and_blanks :
    fu_engine_integrity_from_string [] ("A=1\n#comment\n\nB=2").data =
      ([(("A").data, ("1").data), (("B").data, ("2").data)], none) := by decide

/-- C2 counterexample: the claim says a non-comment line whose id or checksum
part is empty is malformed and causes failure, but the code accepts `"A="`
(empty checksum) and `"=1"` (empty id): parsing succeeds and inserts the
pairs `("A", "")` and `("", "1")`. -/
theorem from_string_accepts_empty_id_and_checksum :
    fu_engine_integrity_from_string [] ("A=\n=1").data =
      ([(("A").data, []), ([], ("1").data)], none) := by decide

/-- C2 (amended): `from_string` fails with the `G_IO_ERROR_INVALID_DATA`
("invalid data") condition exactly when some non-comment, non-empty line
contains no `'='` at all (`g_strsplit(line, "=", 2)` then yields a single
token); a line whose id part or checksum part is empty still splits into two
tokens and is accepted.  The error always carries `"failed to parse: "`
followed by the whole input. -/
theorem from_string_fails_iff_no_equals_line (self : Snapshot) (str : Str) :
    ((fu_engine_integrity_from_string self str).2 ≠ none ↔
      ∃ l ∈ g_strsplit_nl str, malformedLine l) ∧
    ((fu_engine_integrity_from_string self str).2 = none ∨
      (fu_engine_integrity_from_string self str).2 =
        some (FuError.invalidData (("failed to parse: ").data ++ str))) :=
  ⟨fromStringGo_snd_ne_none_iff self str (g_strsplit_nl str),
   fromStringGo_snd_cases self str (g_strsplit_nl str)⟩

/-- C7: on an input whose lines are a block of well-formed (or comment) lines
followed by a first malformed line, `from_string` fails with the invalid-data
error and the resulting table state is exactly the state after processing the
good prefix: nothing at or after the first malformed line is inserted,
whatever follows it. -/
theorem from_string_aborts_at_first_malformed (self : Snapshot) (str : Str)
    (good rest : List Str) (bad : Str)
    (hsplit : g_strsplit_nl str = good ++ bad :: rest)
    (hgood : ∀ l ∈ good, ¬malformedLine l) (hbad : malformedLine bad) :
    fu_engine_integrity_from_string self str =
      ((fromStringGo self str good).1,
        some (FuError.invalidData (("failed to parse: ").data ++ str))) := by
  unfold fu_engine_integrity_from_string
  rw [hsplit]
  exact fromStringGo_append_malformed self str good bad rest hgood hbad

/-- Witness for C7 at the concrete input `"A=1\nBADLINE\nB=2"`: parsing fails
and only `"A=1"` has been inserted, `"B=2"` is never parsed. -/
theorem from_string_aborts_at_first_malformed_witness :
    fu_engine_integrity_from_string [] ("A=1\nBADLINE\nB=2").data =
      ((fromStringGo [] ("A=1\nBADLINE\nB=2").data [("A=1").data]).1,
        some (FuError.invalidData
          (("failed to parse: ").data ++ ("A=1\nBADLINE\nB=2").data))) :=
  from_string_aborts_at_first_malformed [] ("A=1\nBADLINE\nB=2").data
    [("A=1").data] [("B=2").data] ("BADLINE").data
    (by decide) (by decide) (by decide)

/-! ## Claim theorems: insertion -/

/-- C9: calling `add_checksum` twice with the same id always succeeds (it is
total) and leaves the snapshot mapping the id to the second checksum only,
every other key unchanged; keys stay unique, so the table never holds two
entries for one id. -/
theorem add_checksum_last_write_wins (s : Snapshot) (k v1 v2 : Str) (hwf : WF s) :
    WF (fu_engine_integrity_add_checksum (fu_engine_integrity_add_checksum s k v1) k v2) ∧
    ∀ key, g_hash_table_lookup
        (fu_engine_integrity_add_checksum (fu_engine_integrity_add_checksum s k v1) k v2) key =
      if key = k then some v2 else g_hash_table_lookup s key := by
  constructor
  · exact WF_insert _ _ _ (WF_insert _ _ _ hwf)
  · intro key
    unfold fu_engine_integrity_add_checksum
    rw [lookup_insert, lookup_insert]
    by_cases h : key = k <;> simp [h]

/-- Witness for C9: inserting `"A" ↦ "1"` then `"A" ↦ "2"` into `{"X" ↦ "9"}`
keeps only `"2"` for `"A"` and leaves `"X"` untouched. -/
theorem add_checksum_last_write_wins_witness :
    g_hash_table_lookup
        (fu_engine_integrity_add_checksum
          (fu_engine_integrity_add_checksum [(("X").data, ("9").data)]
            ("A").data ("1").data) ("A").data ("2").data) ("A").data =
      some (("2").data) ∧
    g_hash_table_lookup
        (fu_engine_integrity_add_checksum
          (fu_engine_integrity_add_checksum [(("X").data, ("9").data)]
            ("A").data ("1").data) ("A").data ("2").data) ("X").data =
      some (("9").data) := by
  have h := add_checksum_last_write_wins [(("X").data, ("9").data)]
    ("A").data ("1").data ("2").data (by decide)
  constructor
  · rw [h.2 (("A").data)]; decide
  · rw [h.2 (("X").data)]; decide

/-! ## Claim theorems: comparison -/

/-- C5: comparing two snapshots with identical key-to-checksum content (in
particular a snapshot against itself) always succeeds with an empty
discrepancy list. -/
theorem compare_equal_content_succeeds (self other : Snapshot)
    (hs : WF self) (ho : WF other)
    (heq : ∀ k, g_hash_table_lookup self k = g_hash_table_lookup other k) :
    compareArray self other = [] ∧ fu_engine_integrity_compare self other = none := by
  have harr : compareArray self other = [] := by
    unfold compareArray
    rw [List.append_eq_nil]
    constructor
    · rw [List.filterMap_eq_nil_iff]
      intro kv hkv
      obtain ⟨k, v⟩ := kv
      have hl : g_hash_table_lookup self k = some v := lookup_eq_some_of_mem hs hkv
      have ho2 : g_hash_table_lookup other k = some v := (heq k).symm.trans hl
      simp [scan1Entry, ho2]
    · rw [List.filterMap_eq_nil_iff]
      intro kv hkv
      obtain ⟨k, v⟩ := kv
      have hl : g_hash_table_lookup other k = some v := lookup_eq_some_of_mem ho hkv
      have hs2 : g_hash_table_lookup self k = some v := (heq k).trans hl
      simp [scan2Entry, hs2]
  refine ⟨harr, ?_⟩
  simp [fu_engine_integrity_compare, harr]

/-- Witness for C5: comparing a concrete two-entry snapshot against itself
succeeds. -/
theorem compare_equal_content_succeeds_witness :
    compareArray [(("A").data, ("1").data), (("B").data, ("2").data)]
        [(("A").data, ("1").data), (("B").data, ("2").data)] = [] ∧
    fu_engine_integrity_compare [(("A").data, ("1").data), (("B").data, ("2").data)]
        [(("A").data, ("1").data), (("B").data, ("2").data)] = none :=
  compare_equal_content_succeeds
    [(("A").data, ("1").data), (("B").data, ("2").data)]
    [(("A").data, ("1").data), (("B").data, ("2").data)]
    (by decide) (by decide) (fun _ => rfl)

/-- C3: `compare` examines both directions: a key of `self` absent from
`other` is reported (as `"<id>=MISSING-><value>"`, by the first scan), a key
of `other` absent from `self` is reported (as `"<id>=<value>->MISSING"`, by
the second scan); a key present in both with equal values contributes no
record to either scan; and a key present in both with different values is
reported by the first scan as `"<id>=<old>-><new>"` while the second scan
contributes nothing for it (so it is reported exactly once). -/
theorem compare_examines_both_directions (self other : Snapshot) :
    (∀ k v, g_hash_table_lookup self k = some v →
      g_hash_table_lookup other k = none →
      (k ++ ("=MISSING->").data ++ v) ∈ compareArray self other) ∧
    (∀ k v, g_hash_table_lookup other k = some v →
      g_hash_table_lookup self k = none →
      (k ++ '=' :: v ++ ("->MISSING").data) ∈ compareArray self other) ∧
    (∀ k v, g_hash_table_lookup self k = some v →
      g_hash_table_lookup other k = some v →
      scan1Entry other (k, v) = none ∧ scan2Entry self (k, v) = none) ∧
    (∀ k v v2, g_hash_table_lookup self k = some v →
      g_hash_table_lookup other k = some v2 → v ≠ v2 →
      scan1Entry other (k, v) = some (k ++ '=' :: v2 ++ ("->").data ++ v) ∧
        scan2Entry self (k, v2) = none) := by
  refine ⟨?_, ?_, ?_, ?_⟩
  · intro k v hs ho
    apply List.mem_append_left
    exact List.mem_filterMap.mpr ⟨(k, v), mem_of_lookup_eq_some hs, by simp [scan1Entry, ho]⟩
  · intro k v ho hs
    apply List.mem_append_right
    exact List.mem_filterMap.mpr ⟨(k, v), mem_of_lookup_eq_some ho, by simp [scan2Entry, hs]⟩
  · intro k v hs ho
    constructor
    · simp [scan1Entry, ho]
    · simp [scan2Entry, hs]
  · intro k v v2 hs ho hne
    constructor
    · simp [scan1Entry, ho, hne]
    · simp [scan2Entry, hs]

/-- Witness for C3 on `self = {"A":"1","B":"2","D":"8"}` and
`other = {"A":"1","C":"3","D":"9"}`: `B` and `C` are reported in their
respective directions, `A` contributes nothing, and the changed key `D` is
produced by the first scan only. -/
theorem compare_examines_both_directions_witness :
    (("B").data ++ ("=MISSING->").data ++ ("2").data) ∈
      compareArray
        [(("A").data, ("1").data), (("B").data, ("2").data), (("D").data, ("8").data)]
        [(("A").data, ("1").data), (("C").data, ("3").data), (("D").data, ("9").data)] ∧
    (("C").data ++ '=' :: ("3").data ++ ("->MISSING").data) ∈
      compareArray
        [(("A").data, ("1").data), (("B").data, ("2").data), (("D").data, ("8").data)]
        [(("A").data, ("1").data), (("C").data, ("3").data), (("D").data, ("9").data)] ∧
    (scan1Entry
        [(("A").data, ("1").data), (("C").data, ("3").data), (("D").data, ("9").data)]
        (("A").data, ("1").data) = none ∧
      scan2Entry
        [(("A").data, ("1").data), (("B").data, ("2").data), (("D").data, ("8").data)]
        (("A").data, ("1").data) = none) ∧
    (scan1Entry
        [(("A").data, ("1").data), (("C").data, ("3").data), (("D").data, ("9").data)]
        (("D").data, ("8").data) =
        some (("D").data ++ '=' :: ("9").data ++ ("->").data ++ ("8").data) ∧
      scan2Entry
        [(("A").data, ("1").data), (("B").data, ("2").data), (("D").data, ("8").data)]
        (("D").data, ("9").data) = none) := by
  have h := compare_examines_both_directions
    [(("A").data, ("1").data), (("B").data, ("2").data), (("D").data, ("8").data)]
    [(("A").data, ("1").data), (("C").data, ("3").data), (("D").data, ("9").data)]
  exact ⟨h.1 _ _ (by decide) (by decide),
    h.2.1 _ _ (by decide) (by decide),
    h.2.2.1 _ _ (by decide) (by decide),
    h.2.2.2 _ _ _ (by decide) (by decide) (by decide)⟩

/-- C4: comparing `self = {"A":"1","B":"2"}` against `other = {"A":"1","C":"3"}`
fails with exactly the two discrepancies `"B=MISSING->2"` (scan 1) and
`"C=3->MISSING"` (scan 2), and none for `A`. -/
theorem compare_concrete_example :
    compareArray [(("A").data, ("1").data), (("B").data, ("2").data)]
        [(("A").data, ("1").data), (("C").data, ("3").data)] =
      [("B=MISSING->2").data, ("C=3->MISSING").data] ∧
    fu_engine_integrity_compare [(("A").data, ("1").data), (("B").data, ("2").data)]
        [(("A").data, ("1").data), (("C").data, ("3").data)] =
      some (FuError.invalidData ("B=MISSING->2, C=3->MISSING").data) := by
  constructor <;> decide

/-! ## Measurement lemmas -/

theorem runProducer_ne_nil_left (hash : Blob → Str) {self : Snapshot}
    (p : Producer) (h : self ≠ []) : runProducer hash self p ≠ [] := by
  induction p generalizing self with
  | nil => exact h
  | cons m rest ih =>
    rw [runProducer, List.foldl_cons]
    exact ih (insert_ne_nil _ _ _)

theorem runProducer_ne_nil_of_producer (hash : Blob → Str) (self : Snapshot)
    {p : Producer} (h : p ≠ []) : runProducer hash self p ≠ [] := by
  cases p with
  | nil => exact absurd rfl h
  | cons m rest =>
    rw [runProducer, List.foldl_cons]
    exact runProducer_ne_nil_left hash rest (insert_ne_nil _ _ _)

theorem foldProducers_ne_nil (hash : Blob → Str) {self : Snapshot}
    (ps : List Producer) (h : self ≠ []) :
    ps.foldl (runProducer hash) self ≠ [] := by
  induction ps generalizing self with
  | nil => exact h
  | cons p rest ih =>
    rw [List.foldl_cons]
    exact ih (runProducer_ne_nil_left hash p h)

theorem foldProducers_ne_nil_of_mem (hash : Blob → Str) (self : Snapshot)
    {ps : List Producer} {p : Producer} (hp : p ∈ ps) (hne : p ≠ []) :
    ps.foldl (runProducer hash) self ≠ [] := by
  induction ps generalizing self with
  | nil => simp at hp
  | cons q rest ih =>
    rw [List.foldl_cons]
    rcases List.mem_cons.mp hp with rfl | hp2
    · exact foldProducers_ne_nil hash rest (runProducer_ne_nil_of_producer hash self hne)
    · exact ih _ hp2

/-! ## Claim theorems: measurement -/

/-- C6: `measure` fails with `G_IO_ERROR_NOT_FOUND` "no measurements" exactly
when, after invoking every producer, the table is still empty; if at least
one producer yielded at least one pair the result is non-empty, so `measure`
succeeds. -/
theorem measure_fails_iff_still_empty (hash : Blob → Str) (self : Snapshot)
    (ps : List Producer) :
    ((fu_engine_integrity_measure hash self ps).2 =
        some (FuError.notFound ("no measurements").data) ↔
      (fu_engine_integrity_measure hash self ps).1 = []) ∧
    ((∃ p ∈ ps, p ≠ []) → (fu_engine_integrity_measure hash self ps).2 = none) := by
  by_cases hF : (ps.foldl (runProducer hash) self).length = 0
  · have hnil : ps.foldl (runProducer hash) self = [] := List.length_eq_zero.mp hF
    constructor
    · simp [fu_engine_integrity_measure, hF, hnil]
    · rintro ⟨p, hp, hpne⟩
      exact absurd hnil (foldProducers_ne_nil_of_mem hash self hp hpne)
  · have hnil : ps.foldl (runProducer hash) self ≠ [] :=
      fun hc => hF (by rw [hc]; rfl)
    constructor
    · simp [fu_engine_integrity_measure, hF, hnil]
    · intro _
      simp [fu_engine_integrity_measure, hF]

/-- Witness for C6: one producer yielding one pair makes `measure` succeed. -/
theorem measure_fails_iff_still_empty_witness :
    (fu_engine_integrity_measure (fun _ => ("00").data) []
      [[((("UEFI:PK").data), [0, 1])]]).2 = none :=
  (measure_fails_iff_still_empty (fun _ => ("00").data) []
    [[((("UEFI:PK").data), [0, 1])]]).2 (by decide)

/-- C10: if the table already holds at least one entry before `measure` is
called, `measure` succeeds whatever the producers yield (in particular when
every producer yields nothing): the emptiness check looks at the total size
of the table after the producers ran, not at how many measurements they
newly contributed. -/
theorem measure_succeeds_if_prepopulated (hash : Blob → Str) (self : Snapshot)
    (ps : List Producer) (h : self ≠ []) :
    (fu_engine_integrity_measure hash self ps).2 = none := by
  have hne := foldProducers_ne_nil hash ps h
  have hlen : ¬(ps.foldl (runProducer hash) self).length = 0 :=
    fun hc => hne (List.length_eq_zero.mp hc)
  simp [fu_engine_integrity_measure, hlen]

/-- Witness for C10: a pre-populated one-entry table with two producers that
both yield nothing still measures successfully. -/
theorem measure_succeeds_if_prepopulated_witness :
    (fu_engine_integrity_measure (fun _ => ("00").data)
      [(("A").data, ("1").data)] [[], []]).2 = none :=
  measure_succeeds_if_prepopulated (fun _ => ("00").data)
    [(("A").data, ("1").data)] [[], []] (by decide)

/-! ## Round-trip lemmas -/

theorem foldl_insert_eq_append (t : Snapshot) :
    ∀ acc : Snapshot, WF (acc ++ t) →
      t.foldl (fun s kv => fu_engine_integrity_add_checksum s kv.1 kv.2) acc = acc ++ t := by
  induction t with
  | nil => intro acc _; simp
  | cons kv rest ih =>
    intro acc h
    have hnd := h
    unfold WF keys at hnd
    rw [List.map_append, List.map_cons, List.nodup_append] at hnd
    have hnotin : kv.1 ∉ keys acc := by
      intro hc
      exact hnd.2.2 hc (List.mem_cons_self _ _)
    have hins : fu_engine_integrity_add_checksum acc kv.1 kv.2 = acc ++ [kv] := by
      unfold fu_engine_integrity_add_checksum
      rw [insert_of_not_mem kv.2 hnotin]
    rw [List.foldl_cons, hins]
    have hwf2 : WF ((acc ++ [kv]) ++ rest) := by
      rw [List.append_assoc]
      exact h
    rw [ih (acc ++ [kv]) hwf2, List.append_assoc]
    rfl

/-! ## Claim theorem: round-trip -/

/-- C1: for every non-empty snapshot `s` whose entries survive serialization
unchanged (keys contain no `'\n'` or `'='` and do not start with `'#'`,
values contain no `'\n'`; keys are unique, so no duplicate-after-split ids),
and for every iteration order `t` of the same entries (any permutation,
covering both the insertion order of `s` and whatever iteration order
`to_string` uses), deserializing the serialization succeeds and reconstructs
a snapshot whose key-to-checksum mapping equals that of `s`. -/
theorem to_string_from_string_roundtrip (s t : Snapshot)
    (hperm : t.Perm s) (hwf : WF s) (hne : s ≠ [])
    (hclean : ∀ kv ∈ s,
      '\n' ∉ kv.1 ∧ '=' ∉ kv.1 ∧ kv.1.head? ≠ some '#' ∧ '\n' ∉ kv.2) :
    ∃ text r, fu_engine_integrity_to_string t = some text ∧
      fu_engine_integrity_from_string [] text = (r, none) ∧
      ∀ k, g_hash_table_lookup r k = g_hash_table_lookup s k := by
  have hct : ∀ kv ∈ t,
      '\n' ∉ kv.1 ∧ '=' ∉ kv.1 ∧ kv.1.head? ≠ some '#' ∧ '\n' ∉ kv.2 :=
    fun kv hm => hclean kv (hperm.subset hm)
  have hwt : WF t := (hperm.map Prod.fst).nodup_iff.mpr hwf
  have htne : t ≠ [] := by
    intro hc
    subst hc
    exact hne hperm.symm.eq_nil
  have hlnl : ∀ l ∈ t.map lineOf, '\n' ∉ l := by
    intro l hl
    obtain ⟨kv, hkv, rfl⟩ := List.mem_map.mp hl
    have h := hct kv hkv
    unfold lineOf
    intro hc
    rcases List.mem_append.mp hc with hc1 | hc2
    · exact h.1 hc1
    · rcases List.mem_cons.mp hc2 with hc3 | hc4
      · exact absurd hc3 (by decide)
      · exact h.2.2.2 hc4
  have hlne2 : ∀ l ∈ t.map lineOf, l ≠ [] := by
    intro l hl
    obtain ⟨kv, hkv, rfl⟩ := List.mem_map.mp hl
    unfold lineOf
    intro hc
    rw [List.append_eq_nil] at hc
    exact List.cons_ne_nil _ _ hc.2
  have hmne : t.map lineOf ≠ [] := by
    intro hc
    rw [List.map_eq_nil_iff] at hc
    exact htne hc
  have hts : fu_engine_integrity_to_string t = some (joinNl (t.map lineOf)) := by
    unfold fu_engine_integrity_to_string
    rw [if_neg (fun hc => htne (List.length_eq_zero.mp hc))]
  have hsplit : g_strsplit_nl (joinNl (t.map lineOf)) = t.map lineOf := by
    unfold g_strsplit_nl
    rw [if_neg (joinNl_ne_nil hmne hlne2)]
    exact splitChar_joinNl _ hmne hlnl
  have hgo := fromStringGo_clean_lines (joinNl (t.map lineOf)) t []
    (fun kv hm => ⟨(hct kv hm).2.1, (hct kv hm).2.2.1⟩)
  have hfold : t.foldl (fun s2 kv => fu_engine_integrity_add_checksum s2 kv.1 kv.2) [] = t :=
    foldl_insert_eq_append t [] hwt
  refine ⟨joinNl (t.map lineOf), t, hts, ?_, ?_⟩
  · unfold fu_engine_integrity_from_string
    rw [hsplit, hgo, hfold]
  · intro k
    exact lookup_perm hperm hwt k

/-- Witness for C1: the snapshot `{"A":"1","B":"2"}` serialized in the
reversed iteration order round-trips to the same mapping. -/
theorem to_string_from_string_roundtrip_witness :
    ∃ text r,
      fu_engine_integrity_to_string
        [(("B").data, ("2").data), (("A").data, ("1").data)] = some text ∧
      fu_engine_integrity_from_string [] text = (r, none) ∧
      ∀ k, g_hash_table_lookup r k =
        g_hash_table_lookup [(("A").data, ("1").data), (("B").data, ("2").data)] k :=
  to_string_from_string_roundtrip
    [(("A").data, ("1").data), (("B").data, ("2").data)]
    [(("B").data, ("2").data), (("A").data, ("1").data)]
    (by decide) (by decide) (by decide) (by decide)

end FuIntegrity
